import Mathlib

/-!
# Verification of the `nhs-number` crate against its specification

Shallow embedding of `src/lib.rs`, `src/from_str.rs` and `src/testable.rs`.

Modelling conventions:
* Rust `i8` digits are modelled as `Int` (no overflow is ever reached by a
  digit value in the claims' domains); the ten-element array `[i8; 10]` is
  modelled as `Fin 10 → Int`.
* Rust `usize` arithmetic (`d as i8 as usize`, `*`, `sum`) is modelled with
  explicit wrapping `% 2 ^ 64` (release-mode semantics); for digits in
  `[0, 9]` no wrap ever occurs, which is proved below.
* Fallible parsing returns `Except ParseError`.
* The random generator `rand::rng()` is modelled by passing the seven drawn
  values explicitly; `rng.random_range(0..=9)` guarantees each draw lies in
  `[0, 9]`, which becomes a hypothesis of the theorems about the generator.
-/

/-- Embeds `pub struct ParseError` from `src/parse_error.rs`: an opaque
marker with no payload. -/
structure ParseError where

/-- Embeds `pub struct NHSNumber { pub digits: [i8; 10] }` from
`src/lib.rs`. -/
structure NHSNumber where
  digits : Fin 10 → Int

/-- Embeds `NHSNumber::new` from `src/lib.rs`: wraps the given digit array
with no check whatsoever. -/
def NHSNumber.new (digits : Fin 10 → Int) : NHSNumber :=
  ⟨digits⟩

/-- Embeds `pub fn check_digit(digits: [i8; 10]) -> i8 { digits[9] }` from
`src/lib.rs`. -/
def check_digit (digits : Fin 10 → Int) : Int :=
  digits 9

/-- Rust's `d as usize` cast from `i8`: sign extension, i.e. the value
modulo `2 ^ 64`. -/
def usizeOfI8 (d : Int) : Nat :=
  (d % (2 ^ 64)).toNat

/-- The sum computed inside `calculate_check_digit` in `src/lib.rs`:
`digits.iter().take(9).enumerate().map(|(i, &d)| d as usize * (10 - i)).sum()`,
unrolled over the nine summands (weights 10 down to 2), with `usize`
wrapping made explicit. -/
def wrappedWeightedSum (d : Fin 10 → Int) : Nat :=
  (usizeOfI8 (d 0) * 10 % 2 ^ 64 +
   usizeOfI8 (d 1) * 9 % 2 ^ 64 +
   usizeOfI8 (d 2) * 8 % 2 ^ 64 +
   usizeOfI8 (d 3) * 7 % 2 ^ 64 +
   usizeOfI8 (d 4) * 6 % 2 ^ 64 +
   usizeOfI8 (d 5) * 5 % 2 ^ 64 +
   usizeOfI8 (d 6) * 4 % 2 ^ 64 +
   usizeOfI8 (d 7) * 3 % 2 ^ 64 +
   usizeOfI8 (d 8) * 2 % 2 ^ 64) % 2 ^ 64

/-- Embeds `pub fn calculate_check_digit(digits: [i8; 10]) -> i8` from
`src/lib.rs`: `((11 - (sum % 11)) % 10) as i8` (the result lies in `[0, 9]`
so the final `as i8` cast is value-preserving). -/
def calculate_check_digit (digits : Fin 10 → Int) : Int :=
  ((11 - wrappedWeightedSum digits % 11) % 10 : Nat)

/-- Embeds `pub fn validate_check_digit(digits: [i8; 10]) -> bool` from
`src/lib.rs`. -/
def validate_check_digit (digits : Fin 10 → Int) : Bool :=
  check_digit digits == calculate_check_digit digits

/-- Embeds `pub fn format(digits: [i8; 10]) -> String` from `src/lib.rs`:
the formatting template with ten digit placeholders grouped 3-3-4 by two
spaces, each digit rendered with the `i8` display implementation (decimal,
possibly signed), modelled by `toString : Int → String`. -/
def format (digits : Fin 10 → Int) : String :=
  toString (digits 0) ++ toString (digits 1) ++ toString (digits 2) ++ " " ++
  toString (digits 3) ++ toString (digits 4) ++ toString (digits 5) ++ " " ++
  toString (digits 6) ++ toString (digits 7) ++ toString (digits 8) ++ toString (digits 9)

/-- Embeds Rust `char::to_digit(10)` from `src/from_str.rs`: succeeds
exactly on the ASCII decimal digits `'0'..='9'` (code points 48 to 57),
returning the digit value. -/
def toDigit10 (c : Char) : Option Nat :=
  if 48 ≤ c.toNat ∧ c.toNat ≤ 57 then some (c.toNat - 48) else none

/-- One step of the parsing loops in `src/from_str.rs`:
`chars[i].to_digit(10).ok_or(ParseError)? as i8`. -/
def charToDigit (c : Char) : Except ParseError Int :=
  match toDigit10 c with
  | some n => Except.ok (n : Int)
  | none => Except.error ⟨⟩

/-- The `?`-early-return loops of `src/from_str.rs`: converts a list of
characters to digits, stopping at the first failure. -/
def exceptMapList (f : Char → Except ParseError Int) : List Char → Except ParseError (List Int)
  | [] => Except.ok []
  | c :: cs =>
    match f c with
    | Except.error e => Except.error e
    | Except.ok d =>
      match exceptMapList f cs with
      | Except.error e => Except.error e
      | Except.ok ds => Except.ok (d :: ds)

/-- The character indices read by the length-10 branch of `from_str`, in
digit-position order (the loop `for i in 0..10` reads `chars[i]`). -/
def src_indices_10 : List Nat :=
  [0, 1, 2, 3, 4, 5, 6, 7, 8, 9]

/-- The character indices read by the length-12 branch of `from_str`, in
digit-position order: the three loops read `chars[i]` for `i in 0..3`,
`chars[i+4]` for `i in 0..3`, and `chars[i+8]` for `i in 0..4`. -/
def src_indices_12 : List Nat :=
  [0, 1, 2, 4, 5, 6, 8, 9, 10, 11]

/-- Reads the characters at the given indices and converts them to digits
with early return, as the loops of `src/from_str.rs` do.  Every index used
is below the list length (proved in the safety claim), so the `getD`
default is never consulted. -/
def readDigits (chars : List Char) (idxs : List Nat) : Except ParseError (List Int) :=
  exceptMapList charToDigit (idxs.map fun i => chars.getD i ' ')

/-- Packs the ten parsed digits (in digit-position order) into the
`[i8; 10]` array `digits` filled by the loops of `src/from_str.rs`. -/
def digitsOfList (ds : List Int) : Fin 10 → Int :=
  fun i => ds.getD i 0

/-- Embeds the body of `<NHSNumber as FromStr>::from_str` from
`src/from_str.rs`, operating on the collected character list:
`match chars.len() { 10 => ..., 12 => ..., _ => Err(ParseError) }` with the
separator check `if chars[3] != ' ' || chars[7] != ' '` in the 12 branch. -/
def fromStrList (chars : List Char) : Except ParseError NHSNumber :=
  if chars.length = 10 then
    match readDigits chars src_indices_10 with
    | Except.ok ds => Except.ok ⟨digitsOfList ds⟩
    | Except.error e => Except.error e
  else if chars.length = 12 then
    if chars.getD 3 ' ' ≠ ' ' ∨ chars.getD 7 ' ' ≠ ' ' then Except.error ⟨⟩
    else
      match readDigits chars src_indices_12 with
      | Except.ok ds => Except.ok ⟨digitsOfList ds⟩
      | Except.error e => Except.error e
  else Except.error ⟨⟩

/-- Embeds `NHSNumber::from_str` from `src/from_str.rs`:
`let chars: Vec<char> = s.chars().collect()` followed by the length
match. -/
def from_str (s : String) : Except ParseError NHSNumber :=
  fromStrList s.data

/-- Embeds `TESTABLE_MIN` from `src/testable.rs`. -/
def TESTABLE_MIN : NHSNumber :=
  ⟨![9, 9, 9, 0, 0, 0, 0, 0, 0, 0]⟩

/-- Embeds `TESTABLE_MAX` from `src/testable.rs`. -/
def TESTABLE_MAX : NHSNumber :=
  ⟨![9, 9, 9, 9, 9, 9, 9, 9, 9, 9]⟩

/-- Embeds `testable_random_sample` from `src/testable.rs`.  The seven
values produced by `rng.random_range(0..=9)` are passed explicitly as
`draws`; the `rand` contract that each lies in `[0, 9]` becomes a
hypothesis of the theorems below. -/
def testable_random_sample (draws : Fin 7 → Int) : NHSNumber :=
  ⟨![9, 9, 9, draws 0, draws 1, draws 2, draws 3, draws 4, draws 5, draws 6]⟩

/-- The digit sequence of an identifier as a list, in positional order. -/
def digitsList (n : NHSNumber) : List Int :=
  [n.digits 0, n.digits 1, n.digits 2, n.digits 3, n.digits 4,
   n.digits 5, n.digits 6, n.digits 7, n.digits 8, n.digits 9]

/-- Lexicographic comparison of two integer lists, as performed by the
derived `Ord` instance on `[i8; 10]` (element-wise, first difference
decides; a shorter list that is a prefix of the other compares below). -/
def lexLe : List Int → List Int → Bool
  | [], [] => true
  | [], _ :: _ => true
  | _ :: _, [] => false
  | x :: xs, y :: ys =>
    if x < y then true else if y < x then false else lexLe xs ys

/-- The derived `PartialOrd / Ord` ordering on `NHSNumber`: lexicographic
over the digit array. -/
def NHSNumber.le (a b : NHSNumber) : Bool :=
  lexLe (digitsList a) (digitsList b)

/-! ## Specification-side definitions

These follow the wording of the specification and the claims, to be
compared with the source-side definitions above. -/

/-- Spec wording: an ASCII decimal digit character. -/
def isAsciiDigit (c : Char) : Bool :=
  decide (48 ≤ c.toNat ∧ c.toNat ≤ 57)

/-- Spec wording: the digit value of an ASCII decimal digit character. -/
def charVal (c : Char) : Int :=
  ((c.toNat - 48 : Nat) : Int)

/-- Spec wording: the ASCII character rendering a single decimal digit. -/
def digitChar (d : Int) : Char :=
  Char.ofNat (48 + d.toNat)

/-- Modelled from the spec (claim C4): the parser accepts exactly a
10-character all-digit input, or a 12-character input with the space
separator at indices 3 and 7 and digits everywhere else. -/
def spec_accepts_list (chars : List Char) : Bool :=
  if chars.length = 10 then chars.all isAsciiDigit
  else if chars.length = 12 then
    (chars.getD 3 ' ' == ' ') && (chars.getD 7 ' ' == ' ') &&
      ((src_indices_12.map fun i => chars.getD i ' ').all isAsciiDigit)
  else false

/-- Modelled from the spec (claim C4): the digits an accepted input yields,
in order — positions 0 to 9 for the 10-character form, the ten non-separator
characters in order for the 12-character form. -/
def spec_digits_list (chars : List Char) : Fin 10 → Int :=
  if chars.length = 10 then digitsOfList (chars.map charVal)
  else digitsOfList ((src_indices_12.map fun i => chars.getD i ' ').map charVal)

/-- Spec wording (claims C1, C2, C7): the weighted sum of the first nine
digits, digit `i` weighted by `10 - i`, as plain natural arithmetic. -/
def weightedSum (d : Fin 10 → Int) : Nat :=
  (d 0).toNat * 10 + (d 1).toNat * 9 + (d 2).toNat * 8 + (d 3).toNat * 7 +
    (d 4).toNat * 6 + (d 5).toNat * 5 + (d 6).toNat * 4 + (d 7).toNat * 3 +
    (d 8).toNat * 2

/-- The character indices `from_str` reads from an input of the given
length (including the two separator probes in the length-12 branch). -/
def accessedIndices (n : Nat) : List Nat :=
  if n = 10 then src_indices_10
  else if n = 12 then 3 :: 7 :: src_indices_12
  else []

/-- Spec wording (claim C8): the canonical grouped character sequence —
3 digits, one space, 3 digits, one space, 4 digits, with no leading or
trailing whitespace. -/
def formattedChars (d : Fin 10 → Int) : List Char :=
  [digitChar (d 0), digitChar (d 1), digitChar (d 2), ' ',
   digitChar (d 3), digitChar (d 4), digitChar (d 5), ' ',
   digitChar (d 6), digitChar (d 7), digitChar (d 8), digitChar (d 9)]

/-! ## Helper lemmas -/

theorem charToDigit_eq (c : Char) :
    charToDigit c = if isAsciiDigit c then Except.ok (charVal c) else Except.error ⟨⟩ := by
  by_cases h : 48 ≤ c.toNat ∧ c.toNat ≤ 57 <;>
    simp [charToDigit, toDigit10, isAsciiDigit, charVal, h]

theorem exceptMapList_chars (l : List Char) :
    exceptMapList charToDigit l =
      if l.all isAsciiDigit then Except.ok (l.map charVal) else Except.error ⟨⟩ := by
  induction l with
  | nil => simp [exceptMapList]
  | cons c t ih =>
    by_cases hc : isAsciiDigit c
    · by_cases ht : t.all isAsciiDigit <;>
        simp [exceptMapList, charToDigit_eq, hc, ih, ht]
    · simp [exceptMapList, charToDigit_eq, hc]

theorem range_map_getD :
    ∀ (n : Nat) (chars : List Char), chars.length = n →
      ((List.range n).map fun i => chars.getD i ' ') = chars := by
  intro n
  induction n with
  | zero =>
    intro chars h
    rw [List.length_eq_zero] at h
    subst h
    rfl
  | succ k ih =>
    intro chars h
    cases chars with
    | nil => simp at h
    | cons c t =>
      have ht : t.length = k := by simpa using h
      rw [List.range_succ_eq_map, List.map_cons, List.map_map]
      have : ((fun i => (c :: t).getD i ' ') ∘ (· + 1)) = fun i => t.getD i ' ' := by
        funext i
        simp [List.getD_cons_succ]
      rw [this, ih t ht]
      rfl

theorem fromStrList_eq (chars : List Char) :
    fromStrList chars =
      if spec_accepts_list chars then Except.ok ⟨spec_digits_list chars⟩
      else Except.error ⟨⟩ := by
  by_cases h10 : chars.length = 10
  · have hmap : (src_indices_10.map fun i => chars.getD i ' ') = chars := by
      have hr : src_indices_10 = List.range 10 := by decide
      rw [hr]
      exact range_map_getD 10 chars h10
    have hacc : spec_accepts_list chars = chars.all isAsciiDigit := by
      unfold spec_accepts_list
      rw [if_pos h10]
    have hdig : spec_digits_list chars = digitsOfList (chars.map charVal) := by
      unfold spec_digits_list
      rw [if_pos h10]
    unfold fromStrList readDigits
    rw [if_pos h10, hmap, exceptMapList_chars, hacc, hdig]
    by_cases ha : chars.all isAsciiDigit
    · rw [if_pos ha, if_pos ha]
    · rw [if_neg ha, if_neg ha]
  · by_cases h12 : chars.length = 12
    · have hacc : spec_accepts_list chars =
          ((chars.getD 3 ' ' == ' ') && (chars.getD 7 ' ' == ' ') &&
            ((src_indices_12.map fun i => chars.getD i ' ').all isAsciiDigit)) := by
        unfold spec_accepts_list
        rw [if_neg h10, if_pos h12]
      have hdig : spec_digits_list chars =
          digitsOfList ((src_indices_12.map fun i => chars.getD i ' ').map charVal) := by
        unfold spec_digits_list
        rw [if_neg h10]
      unfold fromStrList readDigits
      rw [if_neg h10, if_pos h12, hacc, hdig]
      by_cases h3 : chars.getD 3 ' ' = ' '
      · by_cases h7 : chars.getD 7 ' ' = ' '
        · have hsep : ¬(chars.getD 3 ' ' ≠ ' ' ∨ chars.getD 7 ' ' ≠ ' ') := by
            push_neg
            exact ⟨h3, h7⟩
          rw [if_neg hsep, exceptMapList_chars, h3, h7]
          simp only [beq_self_eq_true, Bool.true_and]
          by_cases ha : (src_indices_12.map fun i => chars.getD i ' ').all isAsciiDigit
          · rw [if_pos ha, if_pos ha]
          · rw [if_neg ha, if_neg ha]
        · have hsep : chars.getD 3 ' ' ≠ ' ' ∨ chars.getD 7 ' ' ≠ ' ' := Or.inr h7
          have hb : (chars.getD 7 ' ' == ' ') = false := by
            simpa using h7
          rw [if_pos hsep, hb]
          simp
      · have hsep : chars.getD 3 ' ' ≠ ' ' ∨ chars.getD 7 ' ' ≠ ' ' := Or.inl h3
        have hb : (chars.getD 3 ' ' == ' ') = false := by
          simpa using h3
        rw [if_pos hsep, hb]
        simp
    · have hacc : spec_accepts_list chars = false := by
        unfold spec_accepts_list
        rw [if_neg h10, if_neg h12]
      unfold fromStrList
      rw [if_neg h10, if_neg h12, hacc]
      simp

theorem toString_digit (d : Int) (h0 : 0 ≤ d) (h9 : d ≤ 9) :
    toString d = String.mk [digitChar d] := by
  interval_cases d <;> rfl

theorem isAsciiDigit_digitChar (d : Int) (h0 : 0 ≤ d) (h9 : d ≤ 9) :
    isAsciiDigit (digitChar d) = true := by
  interval_cases d <;> decide

theorem charVal_digitChar (d : Int) (h0 : 0 ≤ d) (h9 : d ≤ 9) :
    charVal (digitChar d) = d := by
  interval_cases d <;> decide

theorem format_data (d : Fin 10 → Int) (h : ∀ i, 0 ≤ d i ∧ d i ≤ 9) :
    format d = String.mk
      [digitChar (d 0), digitChar (d 1), digitChar (d 2), ' ',
       digitChar (d 3), digitChar (d 4), digitChar (d 5), ' ',
       digitChar (d 6), digitChar (d 7), digitChar (d 8), digitChar (d 9)] := by
  have e : ∀ i : Fin 10, toString (d i) = String.mk [digitChar (d i)] :=
    fun i => toString_digit (d i) (h i).1 (h i).2
  rw [format, e 0, e 1, e 2, e 3, e 4, e 5, e 6, e 7, e 8, e 9]
  rfl

theorem getD_map_charVal_range (l : List Char) (hl : l.all isAsciiDigit = true) :
    ∀ k : Nat, 0 ≤ (l.map charVal).getD k 0 ∧ (l.map charVal).getD k 0 ≤ 9 := by
  induction l with
  | nil =>
    intro k
    simp [List.getD]
  | cons c t ih =>
    rw [List.all_cons, Bool.and_eq_true] at hl
    intro k
    cases k with
    | zero =>
      have hc : 48 ≤ c.toNat ∧ c.toNat ≤ 57 := by
        have hd := hl.1
        simpa [isAsciiDigit] using hd
      simp only [List.map_cons, List.getD_cons_zero, charVal]
      omega
    | succ m =>
      simp only [List.map_cons, List.getD_cons_succ]
      exact ih hl.2 m

theorem parsed_digits_range (s : String) (n : NHSNumber)
    (h : from_str s = Except.ok n) :
    ∀ i, 0 ≤ n.digits i ∧ n.digits i ≤ 9 := by
  rw [from_str, fromStrList_eq] at h
  by_cases ha : spec_accepts_list s.data
  · rw [if_pos ha] at h
    cases h
    intro i
    unfold spec_accepts_list at ha
    unfold spec_digits_list digitsOfList
    by_cases h10 : s.data.length = 10
    · rw [if_pos h10] at ha ⊢
      exact getD_map_charVal_range s.data ha i
    · rw [if_neg h10] at ha ⊢
      by_cases h12 : s.data.length = 12
      · rw [if_pos h12] at ha
        rw [Bool.and_eq_true] at ha
        exact getD_map_charVal_range _ ha.2 i
      · rw [if_neg h12] at ha
        exact absurd ha (by simp)
  · rw [if_neg ha] at h
    cases h

theorem sample_digits_range (draws : Fin 7 → Int)
    (h : ∀ j, 0 ≤ draws j ∧ draws j ≤ 9) :
    ∀ i, 0 ≤ (testable_random_sample draws).digits i ∧
      (testable_random_sample draws).digits i ≤ 9 := by
  intro i
  fin_cases i
  · show (0 : Int) ≤ 9 ∧ (9 : Int) ≤ 9
    norm_num
  · show (0 : Int) ≤ 9 ∧ (9 : Int) ≤ 9
    norm_num
  · show (0 : Int) ≤ 9 ∧ (9 : Int) ≤ 9
    norm_num
  · exact h 0
  · exact h 1
  · exact h 2
  · exact h 3
  · exact h 4
  · exact h 5
  · exact h 6

theorem lexLe_all : ∀ xs ys : List Int, xs.length = ys.length →
    (∀ p ∈ xs.zip ys, p.1 ≤ p.2) → lexLe xs ys = true := by
  intro xs
  induction xs with
  | nil =>
    intro ys h hp
    cases ys with
    | nil => rfl
    | cons y t => simp at h
  | cons x xs ih =>
    intro ys h hp
    cases ys with
    | nil => simp at h
    | cons y t =>
      have hxy : x ≤ y := hp (x, y) (by simp)
      show (if x < y then true else if y < x then false else lexLe xs t) = true
      by_cases hlt : x < y
      · rw [if_pos hlt]
      · rw [if_neg hlt, if_neg (by omega)]
        apply ih t (by simpa using h)
        intro p hpmem
        exact hp p (by simp [hpmem])

theorem digitsList_sample (draws : Fin 7 → Int) :
    digitsList (testable_random_sample draws) =
      [9, 9, 9, draws 0, draws 1, draws 2, draws 3, draws 4, draws 5, draws 6] := rfl

theorem usizeOfI8_of_digit (d : Int) (h0 : 0 ≤ d) (h9 : d ≤ 9) :
    usizeOfI8 d = d.toNat := by
  have h64 : (9 : Int) < 2 ^ 64 := by norm_num
  unfold usizeOfI8
  rw [Int.emod_eq_of_lt h0 (lt_of_le_of_lt h9 h64)]

theorem wws_eq_weightedSum (d : Fin 10 → Int) (h : ∀ i, 0 ≤ d i ∧ d i ≤ 9) :
    wrappedWeightedSum d = weightedSum d := by
  have e : ∀ i : Fin 10, usizeOfI8 (d i) = (d i).toNat :=
    fun i => usizeOfI8_of_digit (d i) (h i).1 (h i).2
  have b : ∀ i : Fin 10, (d i).toNat ≤ 9 := by
    intro i
    have hi := h i
    omega
  unfold wrappedWeightedSum weightedSum
  rw [e 0, e 1, e 2, e 3, e 4, e 5, e 6, e 7, e 8]
  have hp : (2 : Nat) ^ 64 = 18446744073709551616 := by norm_num
  rw [hp]
  have b0 := b 0
  have b1 := b 1
  have b2 := b 2
  have b3 := b 3
  have b4 := b 4
  have b5 := b 5
  have b6 := b 6
  have b7 := b 7
  have b8 := b 8
  omega

theorem format_data_chars (d : Fin 10 → Int) (h : ∀ i, 0 ≤ d i ∧ d i ≤ 9) :
    format d = String.mk (formattedChars d) :=
  format_data d h

theorem formatted_accepts (d : Fin 10 → Int) (h : ∀ i, 0 ≤ d i ∧ d i ≤ 9) :
    spec_accepts_list (formattedChars d) = true := by
  have hall : ∀ i : Fin 10, isAsciiDigit (digitChar (d i)) = true :=
    fun i => isAsciiDigit_digitChar _ (h i).1 (h i).2
  have hlen10 : ¬ ((formattedChars d).length = 10) := by simp [formattedChars]
  have hlen12 : (formattedChars d).length = 12 := by simp [formattedChars]
  unfold spec_accepts_list
  rw [if_neg hlen10, if_pos hlen12]
  have h3 : (formattedChars d).getD 3 ' ' = ' ' := rfl
  have h7 : (formattedChars d).getD 7 ' ' = ' ' := rfl
  have hm : (src_indices_12.map fun i => (formattedChars d).getD i ' ') =
      [digitChar (d 0), digitChar (d 1), digitChar (d 2), digitChar (d 3), digitChar (d 4),
       digitChar (d 5), digitChar (d 6), digitChar (d 7), digitChar (d 8), digitChar (d 9)] := rfl
  rw [h3, h7, hm]
  simp [hall]

theorem formatted_digits (d : Fin 10 → Int) (h : ∀ i, 0 ≤ d i ∧ d i ≤ 9) :
    spec_digits_list (formattedChars d) = d := by
  have hv : ∀ i : Fin 10, charVal (digitChar (d i)) = d i :=
    fun i => charVal_digitChar _ (h i).1 (h i).2
  have hlen10 : ¬ ((formattedChars d).length = 10) := by simp [formattedChars]
  unfold spec_digits_list
  rw [if_neg hlen10]
  funext i
  fin_cases i <;> exact hv _

/-! ## Claim theorems -/

/-- Claim C1, evaluated at the failing input: for the all-zero digit array
the weighted sum of the first nine digits is 0, hence divisible by 11
(remainder 0), yet `calculate_check_digit` returns 1 — not the 0 the claim
(and the crate's own module documentation, "a checksum of 11 is represented
by 0") requires, because `(11 - 0) % 10 = 1`. -/
theorem c1_remainder_zero_gives_one :
    weightedSum ![0, 0, 0, 0, 0, 0, 0, 0, 0, 0] % 11 = 0 ∧
    calculate_check_digit ![0, 0, 0, 0, 0, 0, 0, 0, 0, 0] = 1 := by
  constructor
  · decide
  · decide

/-- Claim C2: whenever the weighted sum of the first nine digits of a digit
array leaves remainder 10 modulo 11, `calculate_check_digit` returns 1 (it
does not signal invalidity); and `calculate_check_digit` never returns 10,
on any input array whatsoever. -/
theorem c2_remainder_ten_gives_one_never_ten :
    (∀ d : Fin 10 → Int, (∀ i, 0 ≤ d i ∧ d i ≤ 9) → weightedSum d % 11 = 10 →
      calculate_check_digit d = 1) ∧
    (∀ d : Fin 10 → Int, calculate_check_digit d ≠ 10) := by
  constructor
  · intro d hr hs
    unfold calculate_check_digit
    rw [wws_eq_weightedSum d hr, hs]
    decide
  · intro d hc
    unfold calculate_check_digit at hc
    have hlt : (11 - wrappedWeightedSum d % 11) % 10 < 10 :=
      Nat.mod_lt _ (by norm_num)
    omega

/-- Witness for claim C2: the digit array `[1,0,0,0,0,0,0,0,0,0]` has
weighted sum 10, so remainder 10 modulo 11, and the check digit the code
computes for it is 1. -/
theorem c2_witness :
    calculate_check_digit ![1, 0, 0, 0, 0, 0, 0, 0, 0, 0] = 1 :=
  c2_remainder_ten_gives_one_never_ten.1 ![1, 0, 0, 0, 0, 0, 0, 0, 0, 0]
    (by decide) (by decide)

/-- Claim C3 counterexample: `NHSNumber.new` (and the public `digits`
field) perform no range check, so a direct digit-array literal can hold the
out-of-range element 10 — the claimed invariant is not established on that
construction path. -/
theorem c3_counterexample :
    ¬ ((NHSNumber.new ![10, 0, 0, 0, 0, 0, 0, 0, 0, 0]).digits 0 ≤ 9) := by
  decide

/-- Claim C3 as amended: the length-10 part of the invariant holds by type
on every path, and identifiers produced by the Parser, or by the Sample
generator from in-range draws, have every digit in [0, 9]; direct
construction through `new` / the public field is unchecked. -/
theorem c3_parser_and_sample_digits_in_range :
    (∀ s n, from_str s = Except.ok n → ∀ i, 0 ≤ n.digits i ∧ n.digits i ≤ 9) ∧
    (∀ draws : Fin 7 → Int, (∀ j, 0 ≤ draws j ∧ draws j ≤ 9) →
      ∀ i, 0 ≤ (testable_random_sample draws).digits i ∧
        (testable_random_sample draws).digits i ≤ 9) :=
  ⟨parsed_digits_range, sample_digits_range⟩

/-- Witness for the amended claim C3, at the parsed string "0123456789" and
at the all-zero draw vector. -/
theorem c3_witness :
    (0 ≤ (⟨digitsOfList [0, 1, 2, 3, 4, 5, 6, 7, 8, 9]⟩ : NHSNumber).digits 0 ∧
      (⟨digitsOfList [0, 1, 2, 3, 4, 5, 6, 7, 8, 9]⟩ : NHSNumber).digits 0 ≤ 9) ∧
    (0 ≤ (testable_random_sample fun _ => 0).digits 3 ∧
      (testable_random_sample fun _ => 0).digits 3 ≤ 9) :=
  ⟨c3_parser_and_sample_digits_in_range.1 ("0123456789")
      ⟨digitsOfList [0, 1, 2, 3, 4, 5, 6, 7, 8, 9]⟩ rfl 0,
   c3_parser_and_sample_digits_in_range.2 (fun _ => 0)
      (fun j => by constructor <;> norm_num) 3⟩

/-- Claim C4: `from_str` succeeds on exactly the two accepted input shapes
and fails with `ParseError` on everything else.  `spec_accepts_list` is the
claim's acceptance condition (10 characters all ASCII digits, or 12
characters with the space separator at indices 3 and 7 and ASCII digits at
the other ten positions) and `spec_digits_list` the claimed extraction (the
digits in order, separators removed); every other input — any other length,
any non-digit in a digit position, any misplaced separator — yields
`ParseError`. -/
theorem c4_from_str_exact_shapes (s : String) :
    from_str s =
      if spec_accepts_list s.data then Except.ok ⟨spec_digits_list s.data⟩
      else Except.error ⟨⟩ :=
  fromStrList_eq s.data

/-- Claim C5: parsing the formatted string gives back exactly the digit
sequence — the format-then-parse round-trip over the canonical grouped
form. -/
theorem c5_format_parse_roundtrip (d : Fin 10 → Int)
    (h : ∀ i, 0 ≤ d i ∧ d i ≤ 9) :
    from_str (format d) = Except.ok ⟨d⟩ := by
  rw [from_str, format_data_chars d h]
  show fromStrList (formattedChars d) = Except.ok ⟨d⟩
  rw [fromStrList_eq, if_pos (formatted_accepts d h), formatted_digits d h]

/-- Witness for claim C5 at the digit sequence 0,1,2,3,4,5,6,7,8,9. -/
theorem c5_witness :
    from_str (format ![0, 1, 2, 3, 4, 5, 6, 7, 8, 9]) =
      Except.ok ⟨![0, 1, 2, 3, 4, 5, 6, 7, 8, 9]⟩ :=
  c5_format_parse_roundtrip ![0, 1, 2, 3, 4, 5, 6, 7, 8, 9] (by decide)

/-- Claim C6: `validate_check_digit` is total and is true exactly when the
stored check digit equals the recomputed one; `check_digit` returns the
stored 10th digit verbatim; and on the array 0..9 it returns 9. -/
theorem c6_validate_iff_and_accessor :
    (∀ d : Fin 10 → Int,
      validate_check_digit d = true ↔ check_digit d = calculate_check_digit d) ∧
    (∀ d : Fin 10 → Int, check_digit d = d 9) ∧
    check_digit ![0, 1, 2, 3, 4, 5, 6, 7, 8, 9] = 9 := by
  refine ⟨fun d => ?_, fun d => rfl, by decide⟩
  simp [validate_check_digit]

/-- Claim C7: `calculate_check_digit` ignores the 10th digit, and on the
worked example 9,4,3,4,7,6,5,9,1,x it returns 9 for every value of x
(weighted sum 299, 299 mod 11 = 2, (11 - 2) mod 10 = 9). -/
theorem c7_worked_example (x : Int) :
    calculate_check_digit ![9, 4, 3, 4, 7, 6, 5, 9, 1, x] = 9 := by
  have h299 : wrappedWeightedSum ![9, 4, 3, 4, 7, 6, 5, 9, 1, x] = 299 := by
    show (usizeOfI8 9 * 10 % 2 ^ 64 + usizeOfI8 4 * 9 % 2 ^ 64 +
        usizeOfI8 3 * 8 % 2 ^ 64 + usizeOfI8 4 * 7 % 2 ^ 64 +
        usizeOfI8 7 * 6 % 2 ^ 64 + usizeOfI8 6 * 5 % 2 ^ 64 +
        usizeOfI8 5 * 4 % 2 ^ 64 + usizeOfI8 9 * 3 % 2 ^ 64 +
        usizeOfI8 1 * 2 % 2 ^ 64) % 2 ^ 64 = 299
    decide
  unfold calculate_check_digit
  rw [h299]
  decide

/-- Claim C8: for in-range digit arrays, `format` is total and
deterministic (it is a pure Lean function) and produces exactly the
12-character canonical grouped string — 3 digits, one space, 3 digits, one
space, 4 digits, no leading or trailing whitespace (`formattedChars` is
that exact character sequence); and on 0..9 it yields "012 345 6789". -/
theorem c8_format_canonical :
    (∀ d : Fin 10 → Int, (∀ i, 0 ≤ d i ∧ d i ≤ 9) →
      format d = String.mk (formattedChars d) ∧ (format d).length = 12) ∧
    format ![0, 1, 2, 3, 4, 5, 6, 7, 8, 9] = "012 345 6789" := by
  constructor
  · intro d h
    refine ⟨format_data_chars d h, ?_⟩
    rw [format_data_chars d h]
    rfl
  · decide

/-- Witness for claim C8 at the digit sequence 0,1,2,3,4,5,6,7,8,9. -/
theorem c8_witness :
    format ![0, 1, 2, 3, 4, 5, 6, 7, 8, 9] =
      String.mk (formattedChars ![0, 1, 2, 3, 4, 5, 6, 7, 8, 9]) ∧
    (format ![0, 1, 2, 3, 4, 5, 6, 7, 8, 9]).length = 12 :=
  c8_format_canonical.1 ![0, 1, 2, 3, 4, 5, 6, 7, 8, 9] (by decide)

/-- Claim C9: for every outcome of the seven draws (each in [0, 9]), the
generated sample has the literal prefix 9,9,9, every digit in [0, 9], and
lies between `TESTABLE_MIN` and `TESTABLE_MAX` in the lexicographic
ordering of the digit sequence. -/
theorem c9_sample_prefix_and_bounds (draws : Fin 7 → Int)
    (h : ∀ j, 0 ≤ draws j ∧ draws j ≤ 9) :
    (testable_random_sample draws).digits 0 = 9 ∧
    (testable_random_sample draws).digits 1 = 9 ∧
    (testable_random_sample draws).digits 2 = 9 ∧
    (∀ i, 0 ≤ (testable_random_sample draws).digits i ∧
      (testable_random_sample draws).digits i ≤ 9) ∧
    NHSNumber.le TESTABLE_MIN (testable_random_sample draws) = true ∧
    NHSNumber.le (testable_random_sample draws) TESTABLE_MAX = true := by
  refine ⟨rfl, rfl, rfl, sample_digits_range draws h, ?_, ?_⟩
  · unfold NHSNumber.le
    rw [digitsList_sample,
      show digitsList TESTABLE_MIN = [9, 9, 9, 0, 0, 0, 0, 0, 0, 0] from rfl]
    apply lexLe_all
    · rfl
    intro p hp
    have h0 := h 0
    have h1 := h 1
    have h2 := h 2
    have h3 := h 3
    have h4 := h 4
    have h5 := h 5
    have h6 := h 6
    simp at hp
    rcases hp with rfl | rfl | rfl | rfl | rfl | rfl | rfl | rfl <;>
      (try simp) <;> omega
  · unfold NHSNumber.le
    rw [digitsList_sample,
      show digitsList TESTABLE_MAX = [9, 9, 9, 9, 9, 9, 9, 9, 9, 9] from rfl]
    apply lexLe_all
    · rfl
    intro p hp
    have h0 := h 0
    have h1 := h 1
    have h2 := h 2
    have h3 := h 3
    have h4 := h 4
    have h5 := h 5
    have h6 := h 6
    simp at hp
    rcases hp with rfl | rfl | rfl | rfl | rfl | rfl | rfl | rfl <;>
      (try simp) <;> omega

/-- Witness for claim C9 at the all-zero draw vector. -/
theorem c9_witness :
    NHSNumber.le TESTABLE_MIN (testable_random_sample fun _ => 0) = true ∧
    NHSNumber.le (testable_random_sample fun _ => 0) TESTABLE_MAX = true := by
  have hc := c9_sample_prefix_and_bounds (fun _ => 0)
    (fun j => by constructor <;> norm_num)
  exact ⟨hc.2.2.2.2.1, hc.2.2.2.2.2⟩

/-- Claim C10: `from_str` is total — on every input string it returns
either `Except.ok` or `Except.error ParseError`, never anything else — and
every character index it reads (as recorded by `accessedIndices`, including
the two separator probes) is strictly below the length of the collected
character vector, so no indexing can go out of bounds. -/
theorem c10_total_and_guarded (s : String) :
    ((∃ n, from_str s = Except.ok n) ∨ from_str s = Except.error ⟨⟩) ∧
    ∀ i ∈ accessedIndices s.data.length, i < s.data.length := by
  constructor
  · cases hf : from_str s with
    | ok n => exact Or.inl ⟨n, rfl⟩
    | error e =>
      right
      cases e
      rfl
  · intro i hi
    unfold accessedIndices at hi
    by_cases h10 : s.data.length = 10
    · rw [if_pos h10] at hi
      rw [h10]
      simp [src_indices_10] at hi
      omega
    · rw [if_neg h10] at hi
      by_cases h12 : s.data.length = 12
      · rw [if_pos h12] at hi
        rw [h12]
        simp [src_indices_12] at hi
        omega
      · rw [if_neg h12] at hi
        simp at hi

/-- Witness for claim C10: the separator probe at index 3 of a 12-character
input is in bounds. -/
theorem c10_witness : 3 < ("012 345 6789" : String).data.length :=
  (c10_total_and_guarded ("012 345 6789")).2 3 (by decide)
